import Mathlib

/-!
# Verification of the Img-s3 prompt-composition pipeline

Shallow embedding of the JavaScript batch job in `serverC.js` and its two
unnamed revisions (`part_000`, the image variant; `part_001`, holding both a
file-writing single-pass revision and a looping bucket revision).

The embedding models:
* the combined-vocabulary computation `Array.from(new Set([...ws1, ...ws2]))`;
* `pickTwoDistinct` with an explicit stream of random indices;
* the response-parsing pipelines of the three `generatePrompts` variants,
  including `sanitizePrompt`;
* timestamp filename generation from `toISOString`;
* the payload-then-marker write order of the file-based `run`;
* the `loopForever` iteration structure with its try/catch fault isolation,
  and the per-item catch of the batched image variant;
* the upload helpers, which receive storage errors as values and never throw.
-/

namespace ImgS3

/-! ## Combined vocabulary: `Array.from(new Set([...ws1, ...ws2]))` -/

/-- One insertion step of a JavaScript `Set` built by iteration: a `Set`
preserves insertion order and ignores an element already present. -/
def insertSeen (seen : List String) (w : String) : List String :=
  if w ∈ seen then seen else seen ++ [w]

/-- Model of `Array.from(new Set(l))`: fold the list into an insertion-ordered
set starting from empty, yielding the first occurrences in order. -/
def jsSetFrom (l : List String) : List String :=
  l.foldl insertSeen []

/-- The Composer's combined vocabulary
(`const combined = Array.from(new Set([...ws1, ...ws2]))`, identical in
`serverC.js` `generatePrompts`, `part_001` `generatePromptsFromWordsets`
and `part_001` `generatePrompts`). -/
def combinedVocabulary (ws1 ws2 : List String) : List String :=
  jsSetFrom (ws1 ++ ws2)

/-- Spec-side description of first-seen-order deduplication: keep each word's
first occurrence, delete every later duplicate. Used only to compare with
`jsSetFrom`, which is the code-side definition. -/
def firstSeenDedup : List String → List String
  | [] => []
  | w :: rest => w :: (firstSeenDedup rest).filter (fun x => decide (x ≠ w))

theorem mem_foldl_insertSeen (l : List String) (seen : List String) (a : String) :
    a ∈ l.foldl insertSeen seen ↔ a ∈ seen ∨ a ∈ l := by
  induction l generalizing seen with
  | nil => simp
  | cons w rest ih =>
      simp only [List.foldl_cons, ih, insertSeen]
      by_cases hw : w ∈ seen
      · simp only [if_pos hw, List.mem_cons]
        constructor
        · rintro (h | h)
          · exact Or.inl h
          · exact Or.inr (Or.inr h)
        · rintro (h | h | h)
          · exact Or.inl h
          · exact Or.inl (h ▸ hw)
          · exact Or.inr h
      · simp only [if_neg hw, List.mem_append, List.mem_singleton, List.mem_cons]
        tauto

theorem nodup_foldl_insertSeen (l : List String) (seen : List String)
    (h : seen.Nodup) : (l.foldl insertSeen seen).Nodup := by
  induction l generalizing seen with
  | nil => exact h
  | cons w rest ih =>
      simp only [List.foldl_cons, insertSeen]
      by_cases hw : w ∈ seen
      · simpa [if_pos hw] using ih seen h
      · rw [if_neg hw]
        refine ih (seen ++ [w]) ?_
        simpa [List.nodup_append] using ⟨h, hw⟩

theorem foldl_insertSeen_eq (l : List String) (seen : List String) :
    l.foldl insertSeen seen
      = seen ++ (firstSeenDedup l).filter (fun x => decide (x ∉ seen)) := by
  induction l generalizing seen with
  | nil => simp [firstSeenDedup]
  | cons w rest ih =>
      simp only [List.foldl_cons, insertSeen, firstSeenDedup]
      by_cases hw : w ∈ seen
      · rw [if_pos hw, ih seen]
        congr 1
        rw [List.filter_cons]
        have hwf : (decide (w ∉ seen)) = false := by simpa using hw
        rw [hwf]
        simp only [List.filter_filter]
        refine List.filter_congr ?_
        intro x _
        by_cases hxw : x = w
        · subst hxw
          simp [hw]
        · simp [hxw]
      · rw [if_neg hw, ih (seen ++ [w])]
        rw [List.filter_cons]
        have hwt : (decide (w ∉ seen)) = true := by simpa using hw
        rw [hwt]
        simp only [List.append_assoc, List.singleton_append, List.cons_append,
          List.nil_append, List.filter_filter]
        congr 2
        refine List.filter_congr ?_
        intro x _
        by_cases hxw : x = w
        · subst hxw
          simp
        · simp [hxw, List.mem_append]

theorem jsSetFrom_eq_firstSeenDedup (l : List String) :
    jsSetFrom l = firstSeenDedup l := by
  have h := foldl_insertSeen_eq l []
  simpa [jsSetFrom, List.filter_true] using h

theorem mem_jsSetFrom (l : List String) (a : String) :
    a ∈ jsSetFrom l ↔ a ∈ l := by
  simpa using mem_foldl_insertSeen l [] a

theorem nodup_jsSetFrom (l : List String) : (jsSetFrom l).Nodup :=
  nodup_foldl_insertSeen l [] List.nodup_nil

/-- C2: For every pair of wordsets `ws1` and `ws2`, the combined vocabulary
`Array.from(new Set([...ws1, ...ws2]))` contains every word occurring in
`ws1` or `ws2` exactly once (count 1, no duplicates), contains no other
element, and lists them in first-seen order of the concatenation `ws1 ++ ws2`
(it equals the spec-side first-seen deduplication). -/
theorem combinedVocabulary_dedup_union (ws1 ws2 : List String) :
    (∀ w, w ∈ combinedVocabulary ws1 ws2 ↔ (w ∈ ws1 ∨ w ∈ ws2)) ∧
    (combinedVocabulary ws1 ws2).Nodup ∧
    combinedVocabulary ws1 ws2 = firstSeenDedup (ws1 ++ ws2) ∧
    (∀ w, w ∈ ws1 ++ ws2 → (combinedVocabulary ws1 ws2).count w = 1) := by
  refine ⟨?_, ?_, ?_, ?_⟩
  · intro w
    simpa [List.mem_append] using mem_jsSetFrom (ws1 ++ ws2) w
  · exact nodup_jsSetFrom (ws1 ++ ws2)
  · exact jsSetFrom_eq_firstSeenDedup (ws1 ++ ws2)
  · intro w hw
    refine List.count_eq_one_of_mem (nodup_jsSetFrom (ws1 ++ ws2)) ?_
    exact (mem_jsSetFrom (ws1 ++ ws2) w).2 hw

/-- Witness for C2 at a concrete input: overlapping wordsets dedup to
first-seen order and the shared word is counted once. -/
theorem combinedVocabulary_dedup_union_witness :
    (combinedVocabulary ["a", "b"] ["b", "c"]).count "b" = 1 :=
  (combinedVocabulary_dedup_union ["a", "b"] ["b", "c"]).2.2.2 "b" (by decide)

/-! ## `pickTwoDistinct`

```js
function pickTwoDistinct(arr) {
  const first = arr[Math.floor(Math.random() * arr.length)];
  let second = first;
  while (second === first && arr.length > 1) {
    second = arr[Math.floor(Math.random() * arr.length)];
  }
  return [first, second];
}
```

The ambient randomness is made explicit: `i0` is the index drawn for `first`
and `stream` the successive indices drawn inside the `while` loop. Equality
on `α` models JavaScript reference identity `===` (each array element is a
distinct object reference). `none` means the loop was still running when the
stream ran out, so a `some` result is exactly a terminating execution. -/

/-- The rejection loop: `second` starts equal to `first` and is re-drawn
while `second === first && arr.length > 1`. -/
def pickSecondLoop [DecidableEq α] [Inhabited α] (arr : List α) (first : α) :
    List Nat → α → Option α
  | stream, second =>
    if second = first ∧ 1 < arr.length then
      match stream with
      | [] => none
      | i :: rest => pickSecondLoop arr first rest (arr.getD i default)
    else some second

/-- `pickTwoDistinct` with explicit randomness; `arr.getD i0 default` is the
`first` draw. -/
def pickTwoDistinct [DecidableEq α] [Inhabited α] (arr : List α) (i0 : Nat)
    (stream : List Nat) : Option (α × α) :=
  (pickSecondLoop arr (arr.getD i0 default) stream (arr.getD i0 default)).map
    (fun second => (arr.getD i0 default, second))

theorem isSome_option_map (o : Option β) (f : β → γ) :
    (o.map f).isSome = o.isSome := by
  cases o <;> rfl

theorem pickSecondLoop_ne_of_some [DecidableEq α] [Inhabited α]
    (arr : List α) (first : α) (stream : List Nat) (second s : α)
    (hlen : 1 < arr.length)
    (h : pickSecondLoop arr first stream second = some s) : s ≠ first := by
  induction stream generalizing second with
  | nil =>
      unfold pickSecondLoop at h
      split at h
      · exact absurd h (by simp)
      · rename_i hc
        obtain rfl : second = s := by simpa using h
        intro hsf
        exact hc ⟨hsf, hlen⟩
  | cons i rest ih =>
      unfold pickSecondLoop at h
      split at h
      · exact ih _ h
      · rename_i hc
        obtain rfl : second = s := by simpa using h
        intro hsf
        exact hc ⟨hsf, hlen⟩

theorem pickSecondLoop_of_not_long [DecidableEq α] [Inhabited α]
    (arr : List α) (first : α) (stream : List Nat) (second : α)
    (hlen : ¬ 1 < arr.length) :
    pickSecondLoop arr first stream second = some second := by
  unfold pickSecondLoop
  rw [if_neg]
  intro hc
  exact hlen hc.2

/-- C3: whenever `pickTwoDistinct` returns a pair `(a, b)`: on a singleton
collection it returns that single element twice (not an error), and on a
collection of two or more elements `a` and `b` differ by reference
identity. -/
theorem pickTwoDistinct_distinct [DecidableEq α] [Inhabited α]
    (arr : List α) (i0 : Nat) (stream : List Nat) (a b : α)
    (hi : i0 < arr.length)
    (h : pickTwoDistinct arr i0 stream = some (a, b)) :
    (∀ x, arr = [x] → a = x ∧ b = x) ∧ (2 ≤ arr.length → a ≠ b) := by
  unfold pickTwoDistinct at h
  rw [Option.map_eq_some'] at h
  obtain ⟨s, hs, hab⟩ := h
  have ha : arr.getD i0 default = a := congrArg Prod.fst hab
  have hb : s = b := congrArg Prod.snd hab
  subst ha
  subst hb
  constructor
  · rintro x rfl
    obtain rfl : i0 = 0 := by
      simp only [List.length_singleton] at hi
      omega
    rw [pickSecondLoop_of_not_long _ _ _ _ (by simp)] at hs
    have hfs : [x].getD 0 default = s := Option.some.inj hs
    exact ⟨rfl, hfs.symm⟩
  · intro h2
    have hne := pickSecondLoop_ne_of_some arr _ stream _ s (by omega) hs
    exact fun heq => hne heq.symm

/-- Witness for C3: on `["u", "v"]` with first draw 0 and loop draw 1 the
result is `("u", "v")`, two distinct elements. -/
theorem pickTwoDistinct_distinct_witness : ("u" : String) ≠ "v" :=
  (pickTwoDistinct_distinct ["u", "v"] 0 [1] "u" "v" (by decide)
    (by decide)).2 (by decide)

theorem pickSecondLoop_isSome_of_ne [DecidableEq α] [Inhabited α]
    (arr : List α) (first : α) (stream : List Nat) (second : α)
    (hne : second ≠ first) :
    (pickSecondLoop arr first stream second).isSome := by
  unfold pickSecondLoop
  rw [if_neg (fun hc => hne hc.1)]
  rfl

theorem pickSecondLoop_isSome_of_mem [DecidableEq α] [Inhabited α]
    (arr : List α) (first : α) (j : Nat)
    (hdiff : arr.getD j default ≠ first) :
    ∀ stream, j ∈ stream →
      ∀ second, (pickSecondLoop arr first stream second).isSome := by
  intro stream
  induction stream with
  | nil => intro hj; cases hj
  | cons i rest ih =>
      intro hj second
      unfold pickSecondLoop
      split
      · rcases List.mem_cons.mp hj with rfl | hj₂
        · exact pickSecondLoop_isSome_of_ne arr first rest _ hdiff
        · exact ih hj₂ _
      · rfl

theorem pickSecondLoop_none_of_all_eq [DecidableEq α] [Inhabited α]
    (arr : List α) (first : α) (stream : List Nat)
    (hlen : 1 < arr.length)
    (hall : ∀ j ∈ stream, arr.getD j default = first) :
    pickSecondLoop arr first stream first = none := by
  induction stream with
  | nil =>
      unfold pickSecondLoop
      rw [if_pos ⟨rfl, hlen⟩]
  | cons i rest ih =>
      unfold pickSecondLoop
      rw [if_pos ⟨rfl, hlen⟩]
      show pickSecondLoop arr first rest (arr.getD i default) = none
      rw [hall i (List.mem_cons_self i rest)]
      exact ih (fun j hj => hall j (List.mem_cons_of_mem i hj))

/-- C9: the rejection loop of `pickTwoDistinct` terminates on every singleton
collection; it terminates on every collection holding two elements that
differ by reference identity, provided the random stream eventually selects
every index; and on a collection of more than one element whose elements are
all the same reference it runs forever (no in-range stream makes it
return). -/
theorem pickTwoDistinct_termination [DecidableEq α] [Inhabited α]
    (arr : List α) (i0 : Nat) (hi : i0 < arr.length) :
    (arr.length = 1 → ∀ stream, (pickTwoDistinct arr i0 stream).isSome) ∧
    (∀ x y, x ∈ arr → y ∈ arr → x ≠ y →
      ∀ stream, (∀ j, j < arr.length → j ∈ stream) →
        (pickTwoDistinct arr i0 stream).isSome) ∧
    (1 < arr.length → (∀ x ∈ arr, x = arr.getD i0 default) →
      ∀ stream, (∀ j ∈ stream, j < arr.length) →
        pickTwoDistinct arr i0 stream = none) := by
  refine ⟨?_, ?_, ?_⟩
  · intro h1 stream
    unfold pickTwoDistinct
    rw [pickSecondLoop_of_not_long _ _ _ _ (by omega)]
    rfl
  · intro x y hx hy hxy stream hstream
    unfold pickTwoDistinct
    rw [isSome_option_map]
    set first := arr.getD i0 default with hfirst
    have hone : x ≠ first ∨ y ≠ first := by
      by_contra hc
      push_neg at hc
      exact hxy (hc.1.trans hc.2.symm)
    have hex : ∃ z, z ∈ arr ∧ z ≠ first := by
      rcases hone with h | h
      · exact ⟨x, hx, h⟩
      · exact ⟨y, hy, h⟩
    obtain ⟨z, hz, hzf⟩ := hex
    obtain ⟨j, hjlt, hjz⟩ := List.mem_iff_getElem.mp hz
    have hjd : arr.getD j default = z := by
      rw [List.getD_eq_getElem?_getD, List.getElem?_eq_getElem hjlt]
      simpa using hjz
    exact pickSecondLoop_isSome_of_mem arr first j (hjd ▸ hzf) stream
      (hstream j hjlt) first
  · intro hlen hall stream hstream
    unfold pickTwoDistinct
    rw [pickSecondLoop_none_of_all_eq arr _ stream hlen]
    · rfl
    · intro j hj
      have hjlt := hstream j hj
      have : arr.getD j default ∈ arr := by
        rw [List.getD_eq_getElem?_getD, List.getElem?_eq_getElem hjlt]
        simp
      exact hall _ this

/-- Witness for C9: on `["u", "v"]` (two distinct references) with a stream
covering every index, `pickTwoDistinct` terminates. -/
theorem pickTwoDistinct_termination_witness :
    (pickTwoDistinct ["u", "v"] 0 [0, 1]).isSome :=
  (pickTwoDistinct_termination ["u", "v"] 0 (by decide)).2.1 "u" "v"
    (by decide) (by decide) (by decide) [0, 1] (by decide)

/-! ## Response parsing

Three composer variants exist in the corpus:
* `serverC.js` `generatePrompts` and `part_001` `generatePromptsFromWordsets`:
  `try { parsed = JSON.parse(content); if (!Array.isArray(parsed)) throw; return parsed }`
  and on any throw the line fallback
  `content.split('\n').map(l => l.trim().replace(/^\d+[\).]\s*/, '')).filter(l => l.length > 0)`;
* `part_001` `generatePrompts` (the looping revision): no JSON attempt at all,
  the same line pipeline with `.map(line => sanitizePrompt(line))` inserted
  before the filter.

Strings are handled at the character-list level so that `split`, `trim`,
`replace` and `join` are modelled directly. -/

/-- JS `\s` / `trim` whitespace class (ASCII portion). -/
def jsWhitespace (c : Char) : Bool := c.isWhitespace

/-- JS `String.prototype.trim`: drop whitespace from both ends. -/
def trimChars (l : List Char) : List Char :=
  ((l.dropWhile jsWhitespace).reverse.dropWhile jsWhitespace).reverse

/-- JS `String.prototype.split(sep)` with a single-character separator:
always returns at least one (possibly empty) field. -/
def splitOnChar (sep : Char) : List Char → List (List Char)
  | [] => [[]]
  | c :: rest =>
      if c = sep then [] :: splitOnChar sep rest
      else (c :: (splitOnChar sep rest).headD []) :: (splitOnChar sep rest).tail

/-- JS `Array.prototype.join(sep)` with a single-character separator. -/
def joinWithChar (sep : Char) : List (List Char) → List Char
  | [] => []
  | [w] => w
  | w :: ws => w ++ sep :: joinWithChar sep ws

/-- `line.replace(/^\d+[\).]\s*/, '')`: if the line starts with one or more
digits followed by `)` or `.`, remove them together with the whitespace that
follows; otherwise leave the line unchanged. -/
def stripEnumChars (l : List Char) : List Char :=
  if (l.takeWhile Char.isDigit).isEmpty then l
  else
    match l.dropWhile Char.isDigit with
    | [] => l
    | c :: rest2 =>
        if c = ')' ∨ c = '.' then rest2.dropWhile jsWhitespace else l

/-- `text.replace(/^"|"$/g, '')`: remove one leading and one trailing
double-quote when present. -/
def stripQuotes (l : List Char) : List Char :=
  let l1 := if l.head? = some '"' then l.tail else l
  if l1.getLast? = some '"' then l1.dropLast else l1

/-- `text.replace(/\s+/g, ' ')`: collapse every whitespace run to a single
space. -/
def collapseWs : List Char → List Char
  | [] => []
  | [c] => if jsWhitespace c then [' '] else [c]
  | c1 :: c2 :: rest =>
      if jsWhitespace c1 && jsWhitespace c2 then collapseWs (c2 :: rest)
      else (if jsWhitespace c1 then ' ' else c1) :: collapseWs (c2 :: rest)

/-- `sanitizePrompt` of `part_001`:
`text.trim().replace(/^"|"$/g,'').replace(/\s+/g,' ').split(' ').slice(0,maxWords).join(' ')`. -/
def sanitizeChars (l : List Char) (maxWords : Nat) : List Char :=
  joinWithChar ' '
    ((splitOnChar ' ' (collapseWs (stripQuotes (trimChars l)))).take maxWords)

/-- String-level `sanitizePrompt`; the source's default `maxWords` is 20. -/
def sanitizePrompt (text : String) (maxWords : Nat) : String :=
  String.mk (sanitizeChars text.toList maxWords)

/-- The line fallback of `serverC.js` `generatePrompts` and `part_001`
`generatePromptsFromWordsets`: split on newline, trim each line, strip the
enumeration prefix, drop empty lines. -/
def lineFallback (content : String) : List String :=
  (((splitOnChar '\n' content.toList).map
      (fun line => stripEnumChars (trimChars line))).filter
      (fun line => !line.isEmpty)).map String.mk

/-- Response parsing of `part_001` `generatePrompts` (the looping revision):
no JSON parse is attempted; lines are trimmed, enum-stripped, sanitized, and
empty results dropped. -/
def part001ParsePrompts (content : String) : List String :=
  ((((splitOnChar '\n' content.toList).map
      (fun line => stripEnumChars (trimChars line))).map
      (fun line => sanitizeChars line 20)).filter
      (fun line => !line.isEmpty)).map String.mk

/-- Outcome of `JSON.parse` as the composer observes it: an array (modelled
with string elements, the only shape consumed as a prompt batch) or any
other successfully parsed value; `none` models a parse throw. -/
inductive JsValue where
  | arr (elems : List String)
  | other

/-- Response parsing of `serverC.js` `generatePrompts` and `part_001`
`generatePromptsFromWordsets`: try `JSON.parse`; a non-array result throws
inside the same `try`, so both a parse failure and a non-array value fall
through to the line fallback. `jsonParse` abstracts the runtime JSON
parser. -/
def parseResponse (jsonParse : String → Option JsValue) (content : String) :
    List String :=
  match jsonParse content with
  | some (JsValue.arr elems) => elems
  | some JsValue.other => lineFallback content
  | none => lineFallback content

theorem splitOnChar_cons (sep c : Char) (rest : List Char) :
    splitOnChar sep (c :: rest) =
      if c = sep then [] :: splitOnChar sep rest
      else (c :: (splitOnChar sep rest).headD [])
        :: (splitOnChar sep rest).tail := rfl

theorem splitOnChar_ne_nil (sep : Char) (l : List Char) :
    splitOnChar sep l ≠ [] := by
  cases l with
  | nil => simp [splitOnChar]
  | cons c rest =>
      unfold splitOnChar
      split <;> simp

theorem not_mem_of_mem_splitOnChar (sep : Char) (l : List Char) :
    ∀ w ∈ splitOnChar sep l, sep ∉ w := by
  induction l with
  | nil =>
      intro w hw
      simp only [splitOnChar, List.mem_singleton] at hw
      subst hw
      simp
  | cons c rest ih =>
      intro w hw
      unfold splitOnChar at hw
      by_cases hc : c = sep
      · rw [if_pos hc] at hw
        rcases List.mem_cons.mp hw with rfl | hw₂
        · simp
        · exact ih w hw₂
      · rw [if_neg hc] at hw
        obtain ⟨h, t, hS⟩ : ∃ h t, splitOnChar sep rest = h :: t := by
          cases hS : splitOnChar sep rest with
          | nil => exact absurd hS (splitOnChar_ne_nil sep rest)
          | cons h t => exact ⟨h, t, rfl⟩
        rw [hS] at hw
        simp only [List.headD_cons, List.tail_cons] at hw
        rcases List.mem_cons.mp hw with rfl | hw₂
        · intro hmem
          rcases List.mem_cons.mp hmem with h1 | h2
          · exact hc h1.symm
          · exact ih h (hS ▸ List.mem_cons_self h t) h2
        · exact ih w (hS ▸ List.mem_cons_of_mem h hw₂)

theorem splitOnChar_of_not_mem (sep : Char) (w : List Char) (hw : sep ∉ w) :
    splitOnChar sep w = [w] := by
  induction w with
  | nil => rfl
  | cons c rest ih =>
      have hc : ¬ c = sep := fun h => hw (List.mem_cons.mpr (Or.inl h.symm))
      have hrest : sep ∉ rest := fun h => hw (List.mem_cons_of_mem c h)
      rw [splitOnChar_cons, if_neg hc, ih hrest]
      rfl

theorem splitOnChar_append (sep : Char) (w rest : List Char) (hw : sep ∉ w) :
    splitOnChar sep (w ++ sep :: rest) = w :: splitOnChar sep rest := by
  induction w with
  | nil =>
      simp only [List.nil_append]
      rw [splitOnChar_cons, if_pos rfl]
  | cons c w' ih =>
      have hc : ¬ c = sep := fun h => hw (List.mem_cons.mpr (Or.inl h.symm))
      have hw' : sep ∉ w' := fun h => hw (List.mem_cons_of_mem c h)
      simp only [List.cons_append]
      rw [splitOnChar_cons, if_neg hc, ih hw']
      rfl

theorem splitOnChar_joinWithChar (sep : Char) :
    ∀ ws : List (List Char), ws ≠ [] → (∀ w ∈ ws, sep ∉ w) →
      splitOnChar sep (joinWithChar sep ws) = ws := by
  intro ws
  induction ws with
  | nil => intro h; exact absurd rfl h
  | cons w ws' ih =>
      intro _ hall
      cases ws' with
      | nil =>
          show splitOnChar sep w = [w]
          exact splitOnChar_of_not_mem sep w (hall w (List.mem_cons_self w []))
      | cons w2 ws'' =>
          show splitOnChar sep (w ++ sep :: joinWithChar sep (w2 :: ws'')) = _
          rw [splitOnChar_append sep w _ (hall w (List.mem_cons_self _ _))]
          rw [ih (by simp) (fun x hx => hall x (List.mem_cons_of_mem w hx))]

theorem sanitizeChars_words_le (l : List Char) :
    (splitOnChar ' ' (sanitizeChars l 20)).length ≤ 20 := by
  unfold sanitizeChars
  set S := splitOnChar ' ' (collapseWs (stripQuotes (trimChars l))) with hS
  have hne : S ≠ [] := splitOnChar_ne_nil _ _
  have htne : S.take 20 ≠ [] := by
    cases hSc : S with
    | nil => exact absurd hSc hne
    | cons h t => simp [hSc]
  have hfree : ∀ w ∈ S.take 20, ' ' ∉ w := fun w hw =>
    not_mem_of_mem_splitOnChar ' ' _ w (hS ▸ List.take_subset 20 S hw)
  rw [splitOnChar_joinWithChar ' ' (S.take 20) htne hfree]
  rw [List.length_take]
  exact min_le_left _ _

/-- C1 counterexample: the claim says every variant first parses the
response as JSON and returns a parsed array directly, but the looping
revision's `generatePrompts` (`part_001`) performs no JSON parse: on the
JSON-array response `["a", "b"]` it returns the raw line, not the array
`["a", "b"]`. -/
theorem part001ParsePrompts_ignores_json :
    part001ParsePrompts "[\"a\", \"b\"]" = ["[\"a\", \"b\"]"] ∧
    part001ParsePrompts "[\"a\", \"b\"]" ≠ ["a", "b"] := by
  constructor <;> decide

/-- C1 amended: in the `serverC.js` `generatePrompts` and `part_001`
`generatePromptsFromWordsets` variants the response is first parsed as JSON
— an array is returned directly, and only otherwise (parse throw or
non-array value) is the response split into lines, each line trimmed then
stripped of a leading enumeration prefix, with empty lines dropped (every
survivor is non-empty); the `part_001` `generatePrompts` variant never
parses JSON and always line-splits, additionally sanitizing each surviving
line. -/
theorem parseResponse_policy (jsonParse : String → Option JsValue)
    (content : String) :
    (∀ elems, jsonParse content = some (JsValue.arr elems) →
      parseResponse jsonParse content = elems) ∧
    ((∀ elems, jsonParse content ≠ some (JsValue.arr elems)) →
      parseResponse jsonParse content = lineFallback content) ∧
    (∀ l ∈ lineFallback content, l ≠ "") ∧
    (∀ l ∈ part001ParsePrompts content, l ≠ "" ∧
      ∃ raw ∈ splitOnChar '\n' content.toList,
        l = String.mk (sanitizeChars (stripEnumChars (trimChars raw)) 20)) ∧
    lineFallback "1. A castle at dawn\n2) A dragon in fog\n"
      = ["A castle at dawn", "A dragon in fog"] := by
  refine ⟨?_, ?_, ?_, ?_, ?_⟩
  · intro elems h
    unfold parseResponse
    rw [h]
  · intro h
    unfold parseResponse
    cases hjp : jsonParse content with
    | none => rfl
    | some v =>
        cases v with
        | arr elems => exact absurd hjp (h elems)
        | other => rfl
  · intro l hl
    unfold lineFallback at hl
    rcases List.mem_map.mp hl with ⟨m, hm, rfl⟩
    have hp := List.of_mem_filter hm
    have hmne : m ≠ [] := by
      cases m with
      | nil => simp at hp
      | cons a b => simp
    intro h
    apply hmne
    have := congrArg String.data h
    simpa using this
  · intro l hl
    unfold part001ParsePrompts at hl
    rcases List.mem_map.mp hl with ⟨m, hm, rfl⟩
    have hp := List.of_mem_filter hm
    have hm' := List.mem_of_mem_filter hm
    rcases List.mem_map.mp hm' with ⟨line, hline, rfl⟩
    rcases List.mem_map.mp hline with ⟨raw, hraw, rfl⟩
    refine ⟨?_, raw, hraw, rfl⟩
    have hmne : sanitizeChars (stripEnumChars (trimChars raw)) 20 ≠ [] := by
      intro hh
      rw [hh] at hp
      simp at hp
    intro h
    apply hmne
    have := congrArg String.data h
    simpa using this
  · decide

/-- Witness for C1 amended: a parser returning the array `["p"]` makes the
composer return it directly. -/
theorem parseResponse_policy_witness :
    parseResponse (fun _ => some (JsValue.arr ["p"])) "x" = ["p"] :=
  (parseResponse_policy (fun _ => some (JsValue.arr ["p"])) "x").1 ["p"] rfl

set_option maxHeartbeats 1600000 in
/-- C8 counterexample: the claim covers "the Composer's line-parsing
fallback" including `serverC.js` `generatePrompts`, whose fallback does not
sanitize: a surviving 25-word line is kept whole, while `sanitizePrompt`
would have truncated it. -/
theorem lineFallback_not_sanitized :
    lineFallback "a a a a a a a a a a a a a a a a a a a a a a a a a"
      = ["a a a a a a a a a a a a a a a a a a a a a a a a a"] ∧
    sanitizePrompt "a a a a a a a a a a a a a a a a a a a a a a a a a" 20
      ≠ "a a a a a a a a a a a a a a a a a a a a a a a a a" := by
  constructor <;> decide

set_option maxHeartbeats 1600000 in
/-- C8 amended: in the `part_001` `generatePrompts` line pipeline (the one
variant that calls `sanitizePrompt`) every surviving line is sanitized —
quote-stripped, whitespace-collapsed and truncated to at most its first 20
space-separated words — and a line of 25 words yields exactly its first 20
words joined by single spaces. -/
theorem part001_sanitize_truncation (content : String) :
    (∀ l ∈ part001ParsePrompts content,
      (splitOnChar ' ' l.toList).length ≤ 20) ∧
    sanitizePrompt "a a a a a a a a a a a a a a a a a a a a a a a a a" 20
      = "a a a a a a a a a a a a a a a a a a a a" := by
  constructor
  · intro l hl
    unfold part001ParsePrompts at hl
    rcases List.mem_map.mp hl with ⟨m, hm, rfl⟩
    have hm' := List.mem_of_mem_filter hm
    rcases List.mem_map.mp hm' with ⟨line, hline, rfl⟩
    exact sanitizeChars_words_le line
  · decide

/-- Witness for C8 amended: on the single-line response `"w"` the surviving
prompt has at most 20 words. -/
theorem part001_sanitize_truncation_witness :
    (splitOnChar ' ' ("w" : String).toList).length ≤ 20 :=
  (part001_sanitize_truncation "w").1 "w" (by decide)

/-! ## Timestamp filenames

```js
const timestamp = now.toISOString().replace(/[-:T]/g, '').slice(0, 14);
return `PREFIX-TIMESTAMP.json`;   // serverC.js / part_001
return `image-TAG-INDEXPLUSONE.png`;  // part_000
```

`toISOString` renders `YYYY-MM-DDTHH:mm:ss.sssZ` in UTC with fixed-width
zero-padded fields; the wall-clock instant is modelled by its rendered
fields. -/

/-- A UTC wall-clock instant, by the fields `Date#toISOString` renders. -/
structure ClockTime where
  year : Nat
  month : Nat
  day : Nat
  hour : Nat
  minute : Nat
  second : Nat
  millis : Nat

/-- Decimal digit character; the `% 10` mirrors fixed-width zero-padded
rendering, where each position holds one decimal digit. -/
def digitChar (n : Nat) : Char := Char.ofNat (48 + n % 10)

/-- Two-digit zero-padded field of `toISOString`. -/
def pad2 (n : Nat) : List Char := [digitChar (n / 10), digitChar n]

/-- Three-digit zero-padded milliseconds field of `toISOString`. -/
def pad3 (n : Nat) : List Char :=
  [digitChar (n / 100), digitChar (n / 10), digitChar n]

/-- Four-digit zero-padded year field of `toISOString`. -/
def pad4 (n : Nat) : List Char :=
  [digitChar (n / 1000), digitChar (n / 100), digitChar (n / 10), digitChar n]

/-- `now.toISOString()` as a character list:
`YYYY-MM-DDTHH:mm:ss.sssZ`. -/
def isoChars (t : ClockTime) : List Char :=
  pad4 t.year ++ '-' :: pad2 t.month ++ '-' :: pad2 t.day ++ 'T' :: pad2 t.hour
    ++ ':' :: pad2 t.minute ++ ':' :: pad2 t.second ++ '.' :: pad3 t.millis
    ++ ['Z']

/-- The character class kept by `.replace(/[-:T]/g, '')`. -/
def keepChar (c : Char) : Bool := !(c = '-' || c = ':' || c = 'T')

/-- `now.toISOString().replace(/[-:T]/g, '').slice(0, 14)`. -/
def timestampChars (t : ClockTime) : List Char :=
  ((isoChars t).filter keepChar).take 14

/-- `getTimestampFilename(prefix)` of `serverC.js` (also `getOutputFilename`
of `part_001` with the fixed `generated-prompts` value). -/
def getTimestampFilename (pre : String) (t : ClockTime) : String :=
  pre ++ "-" ++ String.mk (timestampChars t) ++ ".json"

/-- `getOutputFilename()` of `part_001`. -/
def getOutputFilename (t : ClockTime) : String :=
  getTimestampFilename "generated-prompts" t

/-- `getTimestampedFilename(index)` of `part_000` (image variant). -/
def getTimestampedFilename (t : ClockTime) (index : Nat) : String :=
  "image-" ++ String.mk (timestampChars t) ++ "-" ++ toString (index + 1)
    ++ ".png"

theorem keepChar_digitChar (n : Nat) : keepChar (digitChar n) = true := by
  unfold digitChar keepChar
  have h : ∀ m, m < 10 →
      (!(Char.ofNat (48 + m) = '-' || Char.ofNat (48 + m) = ':'
        || Char.ofNat (48 + m) = 'T')) = true := by decide
  exact h (n % 10) (Nat.mod_lt n (by omega))

theorem filter_keepChar_pad2 (n : Nat) : (pad2 n).filter keepChar = pad2 n := by
  simp [pad2, List.filter_cons, keepChar_digitChar]

theorem filter_keepChar_pad4 (n : Nat) : (pad4 n).filter keepChar = pad4 n := by
  simp [pad4, List.filter_cons, keepChar_digitChar]

/-- After stripping `-`, `:` and `T`, the first 14 characters are exactly
the year through seconds digits: the milliseconds and the `Z` are cut off
by `slice(0, 14)`, and the seconds are kept. -/
theorem timestampChars_eq (t : ClockTime) :
    timestampChars t
      = pad4 t.year ++ pad2 t.month ++ pad2 t.day ++ pad2 t.hour
        ++ pad2 t.minute ++ pad2 t.second := by
  have hdash : keepChar '-' = false := by decide
  have hcolon : keepChar ':' = false := by decide
  have hT : keepChar 'T' = false := by decide
  have hdot : keepChar '.' = true := by decide
  have hZ : keepChar 'Z' = true := by decide
  unfold timestampChars isoChars
  simp [List.filter_append, List.filter_cons, hdash, hcolon, hT, hdot, hZ,
    keepChar_digitChar, pad4, pad3, pad2, List.take_succ_cons]

/-- C6 counterexample: two invocations in the same minute but different
seconds produce different names — the timestamp keeps second precision
(`slice(0, 14)` spans `YYYYMMDDHHmmss`), so names are not constant across a
minute. A same-second format check is included. -/
theorem getTimestampFilename_not_minute_precision :
    getTimestampFilename "generated-prompts"
        ⟨2024, 1, 2, 3, 4, 5, 0⟩
      ≠ getTimestampFilename "generated-prompts"
        ⟨2024, 1, 2, 3, 4, 6, 0⟩ ∧
    getTimestampFilename "generated-prompts" ⟨2024, 1, 2, 3, 4, 5, 678⟩
      = "generated-prompts-20240102030405.json" ∧
    getTimestampedFilename ⟨2024, 1, 2, 3, 4, 5, 678⟩ 0
      = "image-20240102030405-1.png" := by
  refine ⟨?_, ?_, ?_⟩ <;> decide

/-- The field ranges `Date#toISOString` actually renders; every real `Date`
instant satisfies them. -/
def ClockTime.valid (t : ClockTime) : Prop :=
  t.year < 10000 ∧ 1 ≤ t.month ∧ t.month ≤ 12 ∧ 1 ≤ t.day ∧ t.day ≤ 31 ∧
  t.hour < 24 ∧ t.minute < 60 ∧ t.second < 60 ∧ t.millis < 1000

theorem digitChar_inj (a b : Nat) :
    digitChar a = digitChar b ↔ a % 10 = b % 10 := by
  unfold digitChar
  have h : ∀ x, x < 10 → ∀ y, y < 10 →
      (Char.ofNat (48 + x) = Char.ofNat (48 + y) ↔ x = y) := by decide
  exact h (a % 10) (Nat.mod_lt a (by omega)) (b % 10) (Nat.mod_lt b (by omega))

theorem getTimestampFilename_name_inj (pre : String) (t1 t2 : ClockTime)
    (h : getTimestampFilename pre t1 = getTimestampFilename pre t2) :
    timestampChars t1 = timestampChars t2 := by
  unfold getTimestampFilename at h
  have hd := congrArg String.data h
  simp only [String.data_append] at hd
  exact List.append_cancel_left (List.append_cancel_right hd)

theorem timestampChars_inj (t1 t2 : ClockTime)
    (hv1 : t1.valid) (hv2 : t2.valid)
    (h : timestampChars t1 = timestampChars t2) :
    t1.year = t2.year ∧ t1.month = t2.month ∧ t1.day = t2.day ∧
    t1.hour = t2.hour ∧ t1.minute = t2.minute ∧ t1.second = t2.second := by
  obtain ⟨hy1, hmo1a, hmo1b, hd1a, hd1b, hh1, hmi1, hs1, -⟩ := hv1
  obtain ⟨hy2, hmo2a, hmo2b, hd2a, hd2b, hh2, hmi2, hs2, -⟩ := hv2
  rw [timestampChars_eq, timestampChars_eq] at h
  simp only [pad4, pad2, List.cons_append, List.nil_append, List.cons.injEq,
    and_true, digitChar_inj] at h
  obtain ⟨e13, e12, e11, e10, e9, e8, e7, e6, e5, e4, e3, e2, e1, e0⟩ := h
  refine ⟨by omega, by omega, by omega, by omega, by omega, by omega⟩

/-- C6 amended: for wall-clock instants in the ranges `toISOString` renders,
the artifact name has second precision: `PREFIX-YYYYMMDDHHmmss.json` (and
`image-YYYYMMDDHHmmss-INDEXPLUSONE.png` in the image variant); two
invocations produce the same name exactly when their clock fields agree
down to the second — the milliseconds and the `Z` suffix are truncated
away, and invocations in the same minute but different seconds produce
different names. -/
theorem getTimestampFilename_second_precision (pre : String)
    (t1 t2 : ClockTime) (i : Nat) (hv1 : t1.valid) (hv2 : t2.valid) :
    (getTimestampFilename pre t1 = getTimestampFilename pre t2 ↔
      (t1.year = t2.year ∧ t1.month = t2.month ∧ t1.day = t2.day ∧
        t1.hour = t2.hour ∧ t1.minute = t2.minute ∧
        t1.second = t2.second)) ∧
    (t1.second ≠ t2.second →
      getTimestampFilename pre t1 ≠ getTimestampFilename pre t2) ∧
    getTimestampFilename pre t1
      = pre ++ "-" ++ String.mk (pad4 t1.year ++ pad2 t1.month ++ pad2 t1.day
          ++ pad2 t1.hour ++ pad2 t1.minute ++ pad2 t1.second) ++ ".json" ∧
    getTimestampedFilename t1 i
      = "image-" ++ String.mk (pad4 t1.year ++ pad2 t1.month ++ pad2 t1.day
          ++ pad2 t1.hour ++ pad2 t1.minute ++ pad2 t1.second) ++ "-"
          ++ toString (i + 1) ++ ".png" := by
  have hiff : getTimestampFilename pre t1 = getTimestampFilename pre t2 ↔
      (t1.year = t2.year ∧ t1.month = t2.month ∧ t1.day = t2.day ∧
        t1.hour = t2.hour ∧ t1.minute = t2.minute ∧
        t1.second = t2.second) := by
    constructor
    · intro h
      exact timestampChars_inj t1 t2 hv1 hv2
        (getTimestampFilename_name_inj pre t1 t2 h)
    · rintro ⟨h1, h2, h3, h4, h5, h6⟩
      unfold getTimestampFilename
      rw [timestampChars_eq, timestampChars_eq, h1, h2, h3, h4, h5, h6]
  refine ⟨hiff, ?_, ?_, ?_⟩
  · intro hs hname
    exact hs (hiff.mp hname).2.2.2.2.2
  · unfold getTimestampFilename
    rw [timestampChars_eq]
  · unfold getTimestampedFilename
    rw [timestampChars_eq]

/-- Witness for C6 amended: same second with different milliseconds gives
equal names; a different second in the same minute gives different names. -/
theorem getTimestampFilename_second_precision_witness :
    getTimestampFilename "generated-prompts" ⟨2024, 1, 2, 3, 4, 5, 7⟩
      = getTimestampFilename "generated-prompts" ⟨2024, 1, 2, 3, 4, 5, 900⟩ ∧
    getTimestampFilename "generated-prompts" ⟨2024, 1, 2, 3, 4, 5, 7⟩
      ≠ getTimestampFilename "generated-prompts" ⟨2024, 1, 2, 3, 4, 6, 7⟩ := by
  constructor
  · exact ((getTimestampFilename_second_precision "generated-prompts"
      ⟨2024, 1, 2, 3, 4, 5, 7⟩ ⟨2024, 1, 2, 3, 4, 5, 900⟩ 0
      (by unfold ClockTime.valid; decide)
      (by unfold ClockTime.valid; decide)).1).mpr
      ⟨rfl, rfl, rfl, rfl, rfl, rfl⟩
  · exact (getTimestampFilename_second_precision "generated-prompts"
      ⟨2024, 1, 2, 3, 4, 5, 7⟩ ⟨2024, 1, 2, 3, 4, 6, 7⟩ 0
      (by unfold ClockTime.valid; decide)
      (by unfold ClockTime.valid; decide)).2.1 (by decide)

/-! ## Completion-marker write order (`part_001` single-pass revision)

```js
await fs.writeFile(filepath, JSON.stringify({ prompts }, null, 2), 'utf-8');
await fs.writeFile(filepath + '.done', '', 'utf-8');
```

`fs.writeFile` resolves or rejects; a rejection propagates out of `run`
(awaited, no catch), so the marker write runs only after the payload write
resolved. The filesystem is the ordered trace of completed writes; `oracle`
says whether a write at a given name succeeds; a failed write contributes
nothing to the trace. -/

/-- One completed filesystem write. -/
structure FsWrite where
  name : String
  content : String
  deriving DecidableEq

/-- `await fs.writeFile(name, content)`: on success the write is appended to
the trace; on failure the promise rejects, leaving the trace unchanged. -/
def writeFile (oracle : String → Bool) (trace : List FsWrite)
    (name content : String) : Except (List FsWrite) (List FsWrite) :=
  if oracle name then Except.ok (trace ++ [⟨name, content⟩])
  else Except.error trace

/-- The materialization tail of `part_001` `run`: payload write, then marker
write, sequenced by `await`. Both outcomes carry the final trace. -/
def materializeWithMarker (oracle : String → Bool)
    (filepath payload : String) : Except (List FsWrite) (List FsWrite) :=
  match writeFile oracle [] filepath payload with
  | Except.error t => Except.error t
  | Except.ok t1 => writeFile oracle t1 (filepath ++ ".done") ""

/-- C4: the marker at `FILEPATH.done` is written only after the payload
write succeeded — a payload failure leaves the trace empty (no marker), a
payload success is immediately followed by the marker write, and in every
reachable trace a marker entry is preceded by the fully-written payload. -/
theorem materializeWithMarker_order (oracle : String → Bool)
    (filepath payload : String) :
    (oracle filepath = false →
      materializeWithMarker oracle filepath payload = Except.error []) ∧
    (oracle filepath = true → oracle (filepath ++ ".done") = true →
      materializeWithMarker oracle filepath payload
        = Except.ok [⟨filepath, payload⟩, ⟨filepath ++ ".done", ""⟩]) ∧
    (oracle filepath = true → oracle (filepath ++ ".done") = false →
      materializeWithMarker oracle filepath payload
        = Except.error [⟨filepath, payload⟩]) ∧
    (∀ tr : List FsWrite,
      (materializeWithMarker oracle filepath payload = Except.ok tr ∨
        materializeWithMarker oracle filepath payload = Except.error tr) →
      ∀ i : Nat, tr[i]? = some ⟨filepath ++ ".done", ""⟩ →
        ∃ j : Nat, j < i ∧ tr[j]? = some ⟨filepath, payload⟩) := by
  have hne : (⟨filepath, payload⟩ : FsWrite) ≠ ⟨filepath ++ ".done", ""⟩ := by
    intro h
    have h5 : (".done" : String).length = 5 := by decide
    have hn := congrArg (fun w : FsWrite => w.name.length) h
    simp only [String.length_append, h5] at hn
    omega
  refine ⟨?_, ?_, ?_, ?_⟩
  · intro h
    simp [materializeWithMarker, writeFile, h]
  · intro h1 h2
    simp [materializeWithMarker, writeFile, h1, h2]
  · intro h1 h2
    simp [materializeWithMarker, writeFile, h1, h2]
  · intro tr htr i hi
    by_cases h1 : oracle filepath
    · by_cases h2 : oracle (filepath ++ ".done")
      · have htr' : tr = [⟨filepath, payload⟩, ⟨filepath ++ ".done", ""⟩] := by
          rcases htr with h | h
          · simp [materializeWithMarker, writeFile, h1, h2] at h
            exact h.symm
          · simp [materializeWithMarker, writeFile, h1, h2] at h
        subst htr'
        rcases i with _ | _ | n
        · simp only [List.getElem?_cons_zero] at hi
          exact absurd (Option.some.inj hi) hne
        · exact ⟨0, by omega, rfl⟩
        · simp at hi
      · have htr' : tr = [⟨filepath, payload⟩] := by
          rcases htr with h | h
          · simp [materializeWithMarker, writeFile, h1, h2] at h
          · simp [materializeWithMarker, writeFile, h1, h2] at h
            exact h.symm
        subst htr'
        rcases i with _ | n
        · simp only [List.getElem?_cons_zero] at hi
          exact absurd (Option.some.inj hi) hne
        · simp at hi
    · have htr' : tr = [] := by
        rcases htr with h | h
        · simp [materializeWithMarker, writeFile, h1] at h
        · simp [materializeWithMarker, writeFile, h1] at h
          exact h
      subst htr'
      simp at hi

/-- Witness for C4: with every write succeeding, the trace is the payload
write immediately followed by the marker write. -/
theorem materializeWithMarker_order_witness :
    materializeWithMarker (fun _ => true) "f" "p"
      = Except.ok [⟨"f", "p"⟩, ⟨"f" ++ ".done", ""⟩] :=
  (materializeWithMarker_order (fun _ => true) "f" "p").2.1 rfl rfl

/-! ## Single-pass `run` (serverC.js) and the upload helpers

`fetchAllWordsets` converts its own failures to an empty collection, so
`run` observes only a wordset list. Randomness, the generation outcome and
the storage error value are environment inputs. The `Except` result is the
promise outcome observed by `run().catch(...)`. -/

/-- Events observable from the job (console logs / writes), across the
single-pass, looping and image variants. -/
inductive Event where
  | warnedInsufficient
  | selected (ws1 ws2 : List String)
  | composed (prompts : List String)
  | uploadFailed (msg : String)
  | uploaded (filename : String)
  | caughtIterError (msg : String)
  | slept
  | imageUploaded (index : Nat)
  | imageFailed (index : Nat) (msg : String)
  deriving DecidableEq

/-- `uploadPromptsToBucket(prompts, filename)` of `serverC.js`/`part_001`:
the storage client reports failure as an error value
(`const { error } = await supabase...upload(...)`, `upsert: false`); the
helper logs `✗`/`✓` and returns — it never throws, so its promise outcome
is `ok ()` for every storage outcome. -/
def uploadPromptsToBucket (uploadErr : Option String) (filename : String) :
    Except String Unit × List Event :=
  match uploadErr with
  | some m => (Except.ok (), [Event.uploadFailed m])
  | none => (Except.ok (), [Event.uploaded filename])

/-- `uploadImage(buffer, filename)` of `part_000`: identical never-throwing
shape (`upsert: false`, error logged as a value). -/
def uploadImage (uploadErr : Option String) (index : Nat) :
    Except String Unit × List Event :=
  match uploadErr with
  | some m => (Except.ok (), [Event.imageFailed index m])
  | none => (Except.ok (), [Event.imageUploaded index])

/-- Environment of one single-pass `run` of `serverC.js`: fetched wordsets,
selection randomness, `generatePrompts` outcome (an `Except.error` models a
thrown `No response content from GPT` or transport error) and the storage
error value, plus the wall clock for the filename. -/
structure RunEnv where
  wordsets : List (List String)
  i0 : Nat
  stream : List Nat
  gen : Except String (List String)
  uploadErr : Option String
  now : ClockTime

/-- `run()` of `serverC.js`. `none` models the probability-zero case that
the selection loop outlives its random stream (it never returns). -/
def run (env : RunEnv) : Option (Except String Unit × List Event) :=
  if env.wordsets.length < 2 then
    some (Except.ok (), [Event.warnedInsufficient])
  else
    match pickTwoDistinct env.wordsets env.i0 env.stream with
    | none => none
    | some (ws1, ws2) =>
        match env.gen with
        | Except.error m => some (Except.error m, [Event.selected ws1 ws2])
        | Except.ok prompts =>
            some ((uploadPromptsToBucket env.uploadErr
                (getTimestampFilename "generated-prompts" env.now)).1,
              Event.selected ws1 ws2 :: Event.composed prompts ::
                (uploadPromptsToBucket env.uploadErr
                  (getTimestampFilename "generated-prompts" env.now)).2)

/-- C7: with fewer than 2 wordsets, `run` logs the warning and returns
normally: the only event is the warning — no selection, composition, upload
or write happens — and the promise outcome is `ok ()`, the same outcome a
fully successful run resolves with (nothing distinguishes the two at the
process level). -/
theorem run_insufficient_wordsets (env : RunEnv)
    (h : env.wordsets.length < 2) :
    run env = some (Except.ok (), [Event.warnedInsufficient]) := by
  unfold run
  rw [if_pos h]

/-- Witness for C7: a one-wordset environment warns and resolves `ok`. -/
theorem run_insufficient_wordsets_witness :
    run ⟨[["w"]], 0, [], Except.ok ["p"], none, ⟨2024, 1, 1, 0, 0, 0, 0⟩⟩
      = some (Except.ok (), [Event.warnedInsufficient]) :=
  run_insufficient_wordsets
    ⟨[["w"]], 0, [], Except.ok ["p"], none, ⟨2024, 1, 1, 0, 0, 0, 0⟩⟩
    (by decide)

/-- C10: the upload helpers never raise — their promise outcome is `ok ()`
for every storage outcome, success or failure (including a name collision
under `upsert: false`) — and hence a run that reaches the upload resolves
`ok ()` whether or not the upload fails; the failure is only logged. -/
theorem upload_failures_swallowed (env : RunEnv)
    (h2 : 2 ≤ env.wordsets.length) (ps : List String)
    (hgen : env.gen = Except.ok ps) (ws1 ws2 : List String)
    (hpick : pickTwoDistinct env.wordsets env.i0 env.stream
      = some (ws1, ws2)) :
    (∀ e fn, (uploadPromptsToBucket e fn).1 = Except.ok ()) ∧
    (∀ e i, (uploadImage e i).1 = Except.ok ()) ∧
    run env = some (Except.ok (),
      Event.selected ws1 ws2 :: Event.composed ps ::
        (uploadPromptsToBucket env.uploadErr
          (getTimestampFilename "generated-prompts" env.now)).2) ∧
    (run env).map Prod.fst = some (Except.ok ()) := by
  have hok : ∀ e fn, (uploadPromptsToBucket e fn).1 = Except.ok () := by
    intro e fn
    cases e <;> rfl
  have hrun : run env = some (Except.ok (),
      Event.selected ws1 ws2 :: Event.composed ps ::
        (uploadPromptsToBucket env.uploadErr
          (getTimestampFilename "generated-prompts" env.now)).2) := by
    unfold run
    rw [if_neg (by omega), hpick, hgen, hok]
  refine ⟨hok, ?_, hrun, ?_⟩
  · intro e i
    cases e <;> rfl
  · rw [hrun]
    rfl

/-- Witness for C10: a two-wordset run whose upload fails with a collision
still resolves `ok ()`. -/
theorem upload_failures_swallowed_witness :
    run ⟨[["a"], ["b"]], 0, [1], Except.ok ["p"], some "collision",
        ⟨2024, 1, 1, 0, 0, 0, 0⟩⟩
      = some (Except.ok (),
        Event.selected ["a"] ["b"] :: Event.composed ["p"] ::
          [Event.uploadFailed "collision"]) :=
  (upload_failures_swallowed
    ⟨[["a"], ["b"]], 0, [1], Except.ok ["p"], some "collision",
      ⟨2024, 1, 1, 0, 0, 0, 0⟩⟩
    (by decide) ["p"] rfl ["a"] ["b"] (by decide)).2.2.1

/-! ## Continuous mode: `loopForever`

`part_001`'s looping revision wraps each iteration body in
`try { ... } catch (err) { console.error('✗ Loop iteration failed:', err) }`
and then sleeps `intervalMs`; the insufficient-wordsets branch sleeps and
`continue`s inside the `try` (one sleep per iteration either way).
`part_000` (image variant) adds an inner per-item `try/catch` around
`generateImage` inside its batch `for` loop. -/

/-- Environment of one iteration of the `part_001` loop: the
`fetchAllWordsets` outcome (`Except.error` models a thrown transport
exception), the selection randomness, the `generatePrompts` outcome and the
storage error value. -/
structure IterEnv where
  fetch : Except String (List (List String))
  i0 : Nat
  stream : List Nat
  gen : Except String (List String)
  uploadErr : Option String

/-- Line 262 of `part_001` calls `getTimestampedFilename()`, a name that
revision does not define (it defines `getTimestampFilename`); the call
throws a `ReferenceError` when reached. -/
def timestampedFilenameCall : Except String String :=
  Except.error "ReferenceError: getTimestampedFilename is not defined"

/-- The `try`-block body of one loop iteration: each `Except.error` is a
thrown exception propagating to the iteration's `catch`; `none` means the
selection loop never returned (stream exhausted). -/
def loopIterBody (env : IterEnv) : Option (Except String (List Event)) :=
  match env.fetch with
  | Except.error m => some (Except.error m)
  | Except.ok wordsets =>
      if wordsets.length < 2 then
        some (Except.ok [Event.warnedInsufficient])
      else
        match pickTwoDistinct wordsets env.i0 env.stream with
        | none => none
        | some (ws1, ws2) =>
            match env.gen with
            | Except.error m => some (Except.error m)
            | Except.ok prompts =>
                match timestampedFilenameCall with
                | Except.error m => some (Except.error m)
                | Except.ok fn =>
                    some (Except.ok
                      (Event.selected ws1 ws2 :: Event.composed prompts ::
                        (uploadPromptsToBucket env.uploadErr fn).2))

/-- One full iteration: `try/catch` turns a thrown exception into a logged
event, and the iteration always ends with its sleep. -/
def loopIteration (env : IterEnv) : Option (List Event) :=
  match loopIterBody env with
  | none => none
  | some (Except.ok evs) => some (evs ++ [Event.slept])
  | some (Except.error m) => some (Event.caughtIterError m :: [Event.slept])

/-- The event trace of the first `k` iterations of `loopForever`. -/
def loopTrace (envs : Nat → IterEnv) : Nat → Option (List Event)
  | 0 => some []
  | k + 1 =>
      match loopTrace envs k, loopIteration (envs k) with
      | some t, some evs => some (t ++ evs)
      | _, _ => none

/-- Per-item body of the image batch `for` loop of `part_000`:
`generateImage` may throw (no URL, download or transport failure); the
per-item `try/catch` logs a failure with its index and the `for` proceeds. -/
def batchItem (outcome : Except String Unit) (i : Nat) : Event :=
  match outcome with
  | Except.ok _ => Event.imageUploaded i
  | Except.error m => Event.imageFailed i m

/-- The event trace of one image batch of size `batchSize`. -/
def batchTrace (outcomes : Nat → Except String Unit) (batchSize : Nat) :
    List Event :=
  (List.range batchSize).map (fun i => batchItem (outcomes i) i)

theorem loopIterBody_cases (env : IterEnv) :
    loopIterBody env = none ∨
    loopIterBody env = some (Except.ok [Event.warnedInsufficient]) ∨
    ∃ m, loopIterBody env = some (Except.error m) := by
  cases hf : env.fetch with
  | error m =>
      refine Or.inr (Or.inr ⟨m, ?_⟩)
      simp [loopIterBody, hf]
  | ok wordsets =>
      by_cases hlen : wordsets.length < 2
      · refine Or.inr (Or.inl ?_)
        simp [loopIterBody, hf, hlen]
      · cases hp : pickTwoDistinct wordsets env.i0 env.stream with
        | none =>
            refine Or.inl ?_
            simp [loopIterBody, hf, hlen, hp]
        | some p =>
            obtain ⟨ws1, ws2⟩ := p
            cases hg : env.gen with
            | error m =>
                refine Or.inr (Or.inr ⟨m, ?_⟩)
                simp [loopIterBody, hf, hlen, hp, hg]
            | ok prompts =>
                refine Or.inr (Or.inr
                  ⟨"ReferenceError: getTimestampedFilename is not defined", ?_⟩)
                simp [loopIterBody, timestampedFilenameCall, hf, hlen, hp, hg]

theorem loopIteration_count_slept (env : IterEnv) (evs : List Event)
    (h : loopIteration env = some evs) : evs.count Event.slept = 1 := by
  unfold loopIteration at h
  rcases loopIterBody_cases env with hb | hb | ⟨m, hb⟩ <;> rw [hb] at h
  · exact absurd h (by simp)
  · obtain rfl : [Event.warnedInsufficient] ++ [Event.slept] = evs := by
      simpa using h
    decide
  · obtain rfl : Event.caughtIterError m :: [Event.slept] = evs := by
      simpa using h
    simp [List.count_cons]

/-- C5: in continuous mode every exception thrown inside an iteration body
(source load, selection, composition, naming) is caught and logged inside
the loop and the iteration still ends with its sleep; the loop keeps
running — `k` iterations produce exactly `k` sleeps whatever each
iteration's outcome; and in the batched image variant every item of a batch
is attempted and logged individually, one item's failure leaving every
other item's event unchanged. -/
theorem loopForever_fault_isolation :
    (∀ env : IterEnv, ∀ m, env.fetch = Except.error m →
      loopIteration env
        = some [Event.caughtIterError m, Event.slept]) ∧
    (∀ env : IterEnv, ∀ ws ws1 ws2 m, env.fetch = Except.ok ws →
      2 ≤ ws.length →
      pickTwoDistinct ws env.i0 env.stream = some (ws1, ws2) →
      env.gen = Except.error m →
      loopIteration env
        = some [Event.caughtIterError m, Event.slept]) ∧
    (∀ envs : Nat → IterEnv, ∀ k : Nat,
      (∀ i, i < k → (loopIteration (envs i)).isSome) →
      ∃ t, loopTrace envs k = some t ∧ t.count Event.slept = k) ∧
    (∀ outcomes : Nat → Except String Unit, ∀ n,
      (batchTrace outcomes n).length = n) ∧
    (∀ outcomes₁ outcomes₂ : Nat → Except String Unit, ∀ n i : Nat,
      (∀ j, j ≠ i → outcomes₁ j = outcomes₂ j) →
      ∀ j : Nat, j < n → j ≠ i →
        (batchTrace outcomes₁ n)[j]? = (batchTrace outcomes₂ n)[j]?) := by
  refine ⟨?_, ?_, ?_, ?_, ?_⟩
  · intro env m hf
    simp [loopIteration, loopIterBody, hf]
  · intro env ws ws1 ws2 m hf hlen hpick hgen
    have hlt : ¬ ws.length < 2 := by omega
    simp [loopIteration, loopIterBody, hf, hlt, hpick, hgen]
  · intro envs k h
    induction k with
    | zero => exact ⟨[], rfl, rfl⟩
    | succ k ih =>
        obtain ⟨t, ht, hc⟩ := ih (fun i hi => h i (Nat.lt_succ_of_lt hi))
        obtain ⟨evs, hevs⟩ :=
          Option.isSome_iff_exists.mp (h k (Nat.lt_succ_self k))
        refine ⟨t ++ evs, ?_, ?_⟩
        · unfold loopTrace
          rw [ht, hevs]
        · rw [List.count_append, hc,
            loopIteration_count_slept (envs k) evs hevs]
  · intro outcomes n
    simp [batchTrace]
  · intro outcomes₁ outcomes₂ n i hagree j hj hne
    unfold batchTrace
    rw [List.getElem?_map, List.getElem?_map]
    rw [List.getElem?_range hj]
    simp only [Option.map_some']
    rw [hagree j hne]

/-- Witness for C5: an iteration whose source load throws logs the caught
error and sleeps. -/
theorem loopForever_fault_isolation_witness :
    loopIteration ⟨Except.error "boom", 0, [], Except.ok [], none⟩
      = some [Event.caughtIterError "boom", Event.slept] :=
  loopForever_fault_isolation.1
    ⟨Except.error "boom", 0, [], Except.ok [], none⟩ "boom" rfl

end ImgS3
